import Mathlib

/-!
# http-trickle, `cmd/publisher-out`: stream-lifecycle orchestration

A shallow embedding of `cmd/publisher-out/publisher-out.go`:

* `retryCounter.checkRetry`, the time-windowed retry budget;
* `newPublish`, the publish handler, and the change-feed loop body of
  `changefeedSubscribe`;
* `runSubscribe`, the outbound bridge worker, as a machine driven by a schedule
  of events (one event per step of one of its two goroutines);
* the read loop of `runSubscribe` against the bounded buffer of its pipe.

Times are `Int` nanoseconds (Go `time.Time` on the monotonic clock, `time.Duration`),
Go strings are byte lists.
-/

namespace PublisherOut

/-! ## Strings -/

/-- Go `string`: a sequence of bytes. -/
abbrev GoString := List UInt8

/-- The bytes of an ASCII literal. -/
def ascii (s : String) : GoString := s.toList.map (fun c => UInt8.ofNat c.toNat)

/-- Go `strings.HasSuffix(s, suffix)`:
`len(s) >= len(suffix) && s[len(s)-len(suffix):] == suffix`. -/
def HasSuffix (s suffix : GoString) : Bool :=
  decide (s.length ≥ suffix.length) && (s.drop (s.length - suffix.length) == suffix)

/-- The reserved suffix of outbound stream names, the literal `"-out"`. -/
def outSuffix : GoString := ascii "-out"

/-! ## Retry budget (`retryCounter`, lines 184-208) -/

/-- Go `type retryCounter struct { retryCount int; firstRetry time.Time }`.
`retryCount` is a Go `int`; it is incremented once per call, so it stays far below
`2^63` and is kept as an unbounded `Int`. `firstRetry` is a clock reading in
nanoseconds. -/
structure retryCounter where
  retryCount : Int
  firstRetry : Int
deriving DecidableEq, Repr

/-- The zero value `retryCounter{}` (line 96). -/
def retryCounter.zero : retryCounter := { retryCount := 0, firstRetry := 0 }

/-- Go `const maxRetries = 5`. -/
def maxRetries : Int := 5

/-- Go `const retryInterval = 30 * time.Second`, in nanoseconds. -/
def retryInterval : Int := 30 * 1000000000

/-- The body of `checkRetry` with its three clock readings made explicit:
`now1` is the `time.Now()` of line 195, `now2` the one inside `time.Since` on
line 197 and `now3` the `time.Now()` of line 200. Returns the result and the
counter as the call leaves it. -/
def retryCounter.checkRetryClock (rc : retryCounter) (now1 now2 now3 : Int) :
    Bool × retryCounter :=
  let rc1 : retryCounter :=
    if rc.retryCount = 0 then { rc with firstRetry := now1 } else rc
  let rc2 : retryCounter :=
    if now2 - rc1.firstRetry > retryInterval then
      { retryCount := 0, firstRetry := now3 }
    else rc1
  let rc3 : retryCounter := { rc2 with retryCount := rc2.retryCount + 1 }
  if rc3.retryCount > maxRetries then (false, rc3) else (true, rc3)

/-- The method `checkRetry` as a function of the counter and the current time: the
clock readings of one call are the same instant `now`. -/
def retryCounter.checkRetry (rc : retryCounter) (now : Int) : Bool × retryCounter :=
  rc.checkRetryClock now now now

/-- The results of successive calls of `checkRetry` at the times `ts`. -/
def checkRetryResults (rc : retryCounter) : List Int → List Bool
  | [] => []
  | t :: ts => (rc.checkRetry t).1 :: checkRetryResults (rc.checkRetry t).2 ts

/-- The counter after successive calls of `checkRetry` at the times `ts`. -/
def checkRetryState (rc : retryCounter) : List Int → retryCounter
  | [] => rc
  | t :: ts => checkRetryState (rc.checkRetry t).2 ts

/-- The number of times of `l` that lie in the closed interval `[lo, hi]`. -/
def countIn (lo hi : Int) (l : List Int) : Nat :=
  (l.filter (fun t => decide (lo ≤ t) && decide (t ≤ hi))).length

/-! ## Subprocess activity of `runSubscribe` (lines 98-126) -/

/-- How one pass through the `select` of lines 113-124 ends. -/
inductive IterOutcome where
  /-- The branch `case <-subscriptionDone: return` (line 115). -/
  | stopShutdown
  /-- The call `checkRetry` returned false: "Max retries hit, closing", `return` (line 120). -/
  | stopDenied
  /-- The call `checkRetry` returned true: "Retrying ffmpeg input", next loop iteration. -/
  | relaunch
deriving DecidableEq, Repr

/-- One pass through lines 113-124 after the subprocess has exited at time `now`:
`subscriptionDone` says whether that channel is closed when the `select` runs. -/
def ffmpegIter (subscriptionDone : Bool) (rc : retryCounter) (now : Int) :
    IterOutcome × retryCounter :=
  if subscriptionDone then (IterOutcome.stopShutdown, rc)
  else if !(rc.checkRetry now).1 then (IterOutcome.stopDenied, (rc.checkRetry now).2)
  else (IterOutcome.relaunch, (rc.checkRetry now).2)

/-- The `for` loop of lines 105-125 run against the successive subprocess exits
`(now, subscriptionDone)`: the times at which the subprocess is launched again. The
loop ends at the first exit that finds `subscriptionDone` closed or is denied a retry. -/
def ffmpegLoop (rc : retryCounter) : List (Int × Bool) → List Int
  | [] => []
  | (now, done) :: rest =>
    match ffmpegIter done rc now with
    | (IterOutcome.relaunch, rc') => now :: ffmpegLoop rc' rest
    | (IterOutcome.stopShutdown, _) => []
    | (IterOutcome.stopDenied, _) => []

/-- The counter of the subprocess activity after the exits `exits` (the loop's own
counter while the loop runs). -/
def ffmpegLoopState (rc : retryCounter) : List (Int × Bool) → retryCounter
  | [] => rc
  | (now, done) :: rest =>
    match ffmpegIter done rc now with
    | (IterOutcome.relaunch, rc') => ffmpegLoopState rc' rest
    | (IterOutcome.stopShutdown, rc') => rc'
    | (IterOutcome.stopDenied, rc') => rc'

/-! ## Publish ingress (`newPublish`, lines 60-78) -/

/-- The goroutine started by `newPublish` (lines 71-77): the stream name handed to
`segmentPoster` and the address handed to `RunSegmentation`. -/
structure InboundBridge where
  streamName : GoString
  source : GoString
deriving DecidableEq, Repr

/-- The handler `newPublish` for the path value `streamName`: the inbound bridges
(goroutines) it starts. -/
def newPublish (streamName : GoString) : List InboundBridge :=
  if HasSuffix streamName outSuffix then
    []
  else
    [{ streamName := streamName, source := ascii "rtmp://localhost/" ++ streamName }]

/-! ## Discovery loop (`changefeedSubscribe`, lines 153-182) -/

/-- The decoded JSON event `trickle.Changefeed`. -/
structure Changefeed where
  Added : List GoString
  Removed : List GoString
deriving DecidableEq, Repr

/-- The loop of lines 175-179 over `ch.Added`: the stream names for which
`go runSubscribe(stream)` is executed, in execution order. -/
def startWorkers : List GoString → List GoString
  | [] => []
  | stream :: rest =>
    if HasSuffix stream outSuffix then stream :: startWorkers rest else startWorkers rest

/-- What one `client.Read()` of the change feed delivers. -/
inductive FeedRead where
  /-- The call `client.Read()` returned an error: `log.Fatal` ends the process. -/
  | readError
  /-- The body does not decode: logged, `continue`. -/
  | undecodable
  /-- The body decodes to `ch`. -/
  | event (ch : Changefeed)
deriving DecidableEq, Repr

/-- The read loop of lines 162-180 against the successive reads: all the stream names
for which `runSubscribe` is started. -/
def changefeedLoop : List FeedRead → List GoString
  | [] => []
  | FeedRead.readError :: _ => []
  | FeedRead.undecodable :: rest => changefeedLoop rest
  | FeedRead.event ch :: rest => startWorkers ch.Added ++ changefeedLoop rest

/-! ## Base URL (`handleArgs`, lines 210-226) and the subscriber URL (line 82) -/

/-- The fields of Go `url.URL` that `handleArgs` checks and that `String()` prints for
a URL without user info, query and fragment. -/
structure URL where
  Scheme : GoString
  Host : GoString
  Path : GoString
deriving DecidableEq, Repr

/-- Go `(*url.URL).String()` for a URL with a scheme, no user info, query or fragment,
and a path that needs no escaping: `scheme://host` followed by the path, which gets a
leading `/` when it is non-empty, lacks one and the host is non-empty. -/
def URL.String (u : URL) : GoString :=
  u.Scheme ++ ascii "://" ++ u.Host ++
    (if u.Path ≠ [] ∧ u.Path.head? ≠ some 47 ∧ u.Host ≠ [] then ascii "/" else []) ++ u.Path

/-- The checks of `handleArgs` (lines 219-224) on the parsed URL: true when neither
`log.Fatal` is reached. -/
def handleArgs (parsedURL : URL) : Bool :=
  if parsedURL.Scheme ≠ ascii "http" ∧ parsedURL.Scheme ≠ ascii "https" then false
  else if parsedURL.Host = [] then false
  else true

/-- The `URL` field of the subscriber configuration built by `runSubscribe`
(line 82): `baseURL.String() + streamName`. -/
def subscriberURL (baseURL : URL) (streamName : GoString) : GoString :=
  baseURL.String ++ streamName

/-! ## Outbound bridge worker (`runSubscribe`, lines 80-151) -/

/-- A Go `error` value, identified by a number. -/
abbrev GoError := Nat

/-- What one `sub.Read()` delivers (line 129). -/
inductive ReadResult where
  /-- A non-nil error; `eos` is `errors.Is(err, trickle.EOS)`. -/
  | err (eos : Bool)
  /-- A response with its status code and the bytes of its body. -/
  | resp (StatusCode : Int) (Body : GoString)
deriving DecidableEq, Repr

/-- Go `http.StatusOK`. -/
def StatusOK : Int := 200

/-- Where the goroutine that called `runSubscribe` stands. -/
inductive MainPC where
  /-- In the `for` loop of lines 128-145. -/
  | reading
  /-- Left the loop by `break`, before `close(subscriptionDone)` (line 146). -/
  | closeDone
  /-- Before `w.Close()` (line 147). -/
  | closeW
  /-- At `<-ffmpegDone` (line 148). -/
  | waitFfmpeg
  /-- Has returned `err` (`none` is `nil`). -/
  | returned (err : Option GoError)
deriving DecidableEq, Repr

/-- Where the subprocess goroutine of lines 98-126 stands. -/
inductive FfmpegPC where
  /-- The goroutine was never started. -/
  | notStarted
  /-- Inside `cmd.CombinedOutput()` (line 108): the subprocess runs. -/
  | running
  /-- The goroutine has returned and `ffmpegDone` is closed (line 100). -/
  | done
deriving DecidableEq, Repr

/-- The state of one call of `runSubscribe`. -/
structure Bridge where
  /-- Program counter of the calling goroutine. -/
  pc : MainPC
  /-- Program counter of the subprocess goroutine. -/
  ffmpeg : FfmpegPC
  /-- Whether the channel `subscriptionDone` is closed. -/
  subscriptionDone : Bool
  /-- The counter `rc` of line 96. -/
  rc : retryCounter
  /-- How many times the subprocess was launched (lines 106-108). -/
  launches : Nat
  /-- The times at which it was launched again after an exit. -/
  relaunches : List Int
  /-- Whether the subprocess goroutine returned on a denied retry (line 120). -/
  denied : Bool
  /-- How many times `sub.Read()` was called. -/
  reads : Nat
  /-- The bytes copied into the pipe write end `w` so far (line 138). -/
  written : GoString
  /-- Whether `os.Pipe()` succeeded. -/
  pipeOpened : Bool
  /-- Whether the pipe read end `r` is open. -/
  rOpen : Bool
  /-- Whether the pipe write end `w` is open. -/
  wOpen : Bool
deriving DecidableEq, Repr

/-- The state in which `runSubscribe` has returned `err` during startup (line 86 or
line 91): no pipe, no goroutine, no read. -/
def Bridge.failed (err : GoError) : Bridge :=
  { pc := MainPC.returned (some err), ffmpeg := FfmpegPC.notStarted,
    subscriptionDone := false, rc := retryCounter.zero, launches := 0, relaunches := [],
    denied := false, reads := 0, written := [], pipeOpened := false,
    rOpen := false, wOpen := false }

/-- Lines 80-126 of `runSubscribe`: `newSub` is the error of `NewTrickleSubscriber`
and `pipe` the error of `os.Pipe()` (`none` is `nil`). On success the subprocess
goroutine is started and launches the subprocess for the first time, and the calling
goroutine enters its read loop. -/
def runSubscribeStart (newSub pipe : Option GoError) : Bridge :=
  match newSub with
  | some err => Bridge.failed err
  | none =>
    match pipe with
    | some err => Bridge.failed err
    | none =>
      { pc := MainPC.reading, ffmpeg := FfmpegPC.running, subscriptionDone := false,
        rc := retryCounter.zero, launches := 1, relaunches := [], denied := false,
        reads := 0, written := [], pipeOpened := true, rOpen := true, wOpen := true }

/-- One step of one of the two goroutines of `runSubscribe`. -/
inductive Event where
  /-- The calling goroutine runs one iteration of its loop (lines 129-144) and
  `sub.Read()` delivers `r`. -/
  | read (r : ReadResult)
  /-- The calling goroutine executes its next statement of lines 146-150. -/
  | mainStep
  /-- The subprocess exits at time `now` and the subprocess goroutine runs lines
  109-124. -/
  | ffmpegExit (now : Int)
deriving DecidableEq, Repr

/-- One iteration of the loop of lines 128-145 with `sub.Read()` delivering `r`, for an
iteration whose `io.Copy(w, resp.Body)` (line 138) runs to its end: the pipe takes the
whole body. The copy against the bounded buffer of the pipe, which blocks while the
buffer is full, is `PipeLoop.step` below. -/
def Bridge.readIter (s : Bridge) (r : ReadResult) : Bridge :=
  match r with
  | ReadResult.err _ => { s with reads := s.reads + 1, pc := MainPC.closeDone }
  | ReadResult.resp code body =>
    if code = StatusOK then
      { s with reads := s.reads + 1, written := s.written ++ body }
    else
      { s with reads := s.reads + 1, pc := MainPC.closeDone }

/-- The effect of one event; an event whose goroutine is not at that point (or is
blocked there) leaves the state unchanged. -/
def Bridge.step (s : Bridge) (e : Event) : Bridge :=
  match e with
  | Event.read r =>
    match s.pc with
    | MainPC.reading => s.readIter r
    | _ => s
  | Event.mainStep =>
    match s.pc with
    | MainPC.reading => s
    | MainPC.closeDone => { s with subscriptionDone := true, pc := MainPC.closeW }
    | MainPC.closeW => { s with wOpen := false, pc := MainPC.waitFfmpeg }
    | MainPC.waitFfmpeg =>
      if s.ffmpeg = FfmpegPC.done then { s with pc := MainPC.returned none } else s
    | MainPC.returned _ => s
  | Event.ffmpegExit now =>
    match s.ffmpeg with
    | FfmpegPC.running =>
      match ffmpegIter s.subscriptionDone s.rc now with
      | (IterOutcome.stopShutdown, rc') => { s with rc := rc', ffmpeg := FfmpegPC.done }
      | (IterOutcome.stopDenied, rc') =>
        { s with rc := rc', ffmpeg := FfmpegPC.done, denied := true }
      | (IterOutcome.relaunch, rc') =>
        { s with rc := rc', launches := s.launches + 1, relaunches := s.relaunches ++ [now] }
    | _ => s

/-- The state after the events of a schedule, in order. -/
def Bridge.exec (s : Bridge) (evs : List Event) : Bridge :=
  evs.foldl Bridge.step s

/-- A read result on which the loop of lines 128-145 continues: a response with
status 200. -/
def ReadResult.isOK : ReadResult → Bool
  | ReadResult.err _ => false
  | ReadResult.resp code _ => decide (code = StatusOK)

/-- The body bytes of a read result (none for an error). -/
def ReadResult.body : ReadResult → GoString
  | ReadResult.err _ => []
  | ReadResult.resp _ body => body

/-- The schedule that ends a bridge whose subscription delivers the stopping result
`stop` and whose subprocess exits at time `now`. -/
def shutdownSchedule (stop : ReadResult) (now : Int) : List Event :=
  [Event.read stop, Event.mainStep, Event.mainStep, Event.ffmpegExit now, Event.mainStep]

/-- The bridge whose subprocess, after a successful startup, has exited six times, 100
ms apart, while the subscription was running: five retries are granted and the sixth is
denied. -/
def deniedBridge : Bridge :=
  (runSubscribeStart none none).exec
    [Event.ffmpegExit 0, Event.ffmpegExit 100000000, Event.ffmpegExit 200000000,
      Event.ffmpegExit 300000000, Event.ffmpegExit 400000000, Event.ffmpegExit 500000000]

/-- The schedule in which the subscriber delivers the bodies `bodies`, each with
status 200. -/
def okReads (bodies : List GoString) : List Event :=
  bodies.map (fun body => Event.read (ReadResult.resp StatusOK body))

/-- What holds of a bridge that started: the subprocess goroutine exists, a calling
goroutine past line 146 has closed `subscriptionDone`, and no error was returned. -/
def Bridge.Started (s : Bridge) : Prop :=
  s.ffmpeg ≠ FfmpegPC.notStarted ∧
  (s.pc = MainPC.closeW ∨ s.pc = MainPC.waitFfmpeg → s.subscriptionDone = true) ∧
  (∀ err : GoError, s.pc ≠ MainPC.returned (some err))

/-! ## The read loop against the bounded pipe (lines 128-145, `os.Pipe()` of line 88) -/

/-- Where the read loop of lines 128-145 stands. -/
inductive LoopPC where
  /-- At `sub.Read()` (line 129). -/
  | reading
  /-- Inside `io.Copy(w, resp.Body)` (line 138), with `rest` of the body still to be
  written to the pipe. -/
  | copying (rest : GoString)
  /-- Left the loop by `break` (line 135 or line 143). -/
  | stopped
deriving DecidableEq, Repr

/-- The read loop of `runSubscribe` together with the buffer of its pipe. -/
structure PipeLoop where
  /-- Where the loop stands. -/
  pc : LoopPC
  /-- The results that the coming calls of `sub.Read()` deliver, in order. -/
  upcoming : List ReadResult
  /-- How many times `sub.Read()` has returned. -/
  reads : Nat
  /-- The bytes written to the pipe write end `w` so far. -/
  written : GoString
  /-- How many of them sit in the pipe buffer, not yet read from `r`. -/
  buffered : Nat
deriving DecidableEq, Repr

/-- The loop as it is entered, with the results the subscriber is going to deliver. -/
def PipeLoop.init (results : List ReadResult) : PipeLoop :=
  { pc := LoopPC.reading, upcoming := results, reads := 0, written := [], buffered := 0 }

/-- One step of the read loop or of the reader of the pipe. -/
inductive LoopEvent where
  /-- The calling goroutine moves on: at `sub.Read()` it receives the next result, inside
  `io.Copy` it writes up to `k` more bytes, as far as the pipe buffer has room. -/
  | advance (k : Nat)
  /-- The subprocess reads up to `n` bytes from the pipe read end. -/
  | drain (n : Nat)
deriving DecidableEq, Repr

/-- The effect of one event on the read loop, for a pipe buffer of `cap` bytes. A
`sub.Read()` with no result to deliver blocks, and so does a write to a full buffer:
the state is left as it is. The result of `io.Copy` is dropped (line 138), and the
loop goes back to `sub.Read()` once the body is written. -/
def PipeLoop.step (cap : Nat) (s : PipeLoop) (e : LoopEvent) : PipeLoop :=
  match e with
  | LoopEvent.drain n => { s with buffered := s.buffered - n }
  | LoopEvent.advance k =>
    match s.pc with
    | LoopPC.stopped => s
    | LoopPC.reading =>
      match s.upcoming with
      | [] => s
      | ReadResult.err _ :: rest =>
        { s with upcoming := rest, reads := s.reads + 1, pc := LoopPC.stopped }
      | ReadResult.resp code body :: rest =>
        if code = StatusOK then
          { s with upcoming := rest, reads := s.reads + 1, pc := LoopPC.copying body }
        else
          { s with upcoming := rest, reads := s.reads + 1, pc := LoopPC.stopped }
    | LoopPC.copying rest =>
      { s with
        written := s.written ++ rest.take (min k (min rest.length (cap - s.buffered))),
        buffered := s.buffered + min k (min rest.length (cap - s.buffered)),
        pc :=
          if rest.drop (min k (min rest.length (cap - s.buffered))) = [] then LoopPC.reading
          else LoopPC.copying (rest.drop (min k (min rest.length (cap - s.buffered)))) }

/-- The state of the read loop after the events of a schedule, in order. -/
def PipeLoop.exec (cap : Nat) (s : PipeLoop) (evs : List LoopEvent) : PipeLoop :=
  evs.foldl (PipeLoop.step cap) s

/-- The concatenation, in order, of the bodies of the status-200 responses that come
before the first result that is an error or has another status. -/
def okBodies (results : List ReadResult) : GoString :=
  ((results.takeWhile ReadResult.isOK).map ReadResult.body).flatten

/-- The bytes written so far followed by those that the loop, left to run, still has to
write. -/
def PipeLoop.target (s : PipeLoop) : GoString :=
  s.written ++
    (match s.pc with
      | LoopPC.reading => okBodies s.upcoming
      | LoopPC.copying rest => rest ++ okBodies s.upcoming
      | LoopPC.stopped => [])

/-- The reads made so far plus those that the loop, left to run, still has to make. -/
def PipeLoop.readsTarget (s : PipeLoop) : Nat :=
  s.reads +
    (match s.pc with
      | LoopPC.stopped => 0
      | _ => (s.upcoming.takeWhile ReadResult.isOK).length + 1)

/-- The loop either has stopped or still has a stopping result to receive. -/
def PipeLoop.WillStop (s : PipeLoop) : Prop :=
  s.pc = LoopPC.stopped ∨ ∃ r ∈ s.upcoming, r.isOK = false

/-- The default size of a Linux pipe buffer, in bytes. -/
def linuxPipeBuffer : Nat := 65536

/-- A status-200 response with a body of 80001 zero bytes, then the end-of-stream
error. -/
def longBodyThenEOS : List ReadResult :=
  [ReadResult.resp StatusOK (List.replicate 80001 0), ReadResult.err true]

/-- The read loop that receives the long body while nothing reads the pipe: the first
`sub.Read()` returns and `io.Copy` writes what it can. -/
def stalledLoop : PipeLoop :=
  (PipeLoop.init longBodyThenEOS).exec linuxPipeBuffer
    [LoopEvent.advance 0, LoopEvent.advance 80001]

/-! ## Lemmas on the retry budget -/

theorem checkRetry_zero_count (rc : retryCounter) (now : Int) (h : rc.retryCount = 0) :
    rc.checkRetry now = (true, { retryCount := 1, firstRetry := now }) := by
  simp [retryCounter.checkRetry, retryCounter.checkRetryClock, h, retryInterval, maxRetries]

theorem checkRetry_in_window (rc : retryCounter) (now : Int) (h0 : rc.retryCount ≠ 0)
    (hw : now - rc.firstRetry ≤ retryInterval) :
    rc.checkRetry now =
      (decide (rc.retryCount + 1 ≤ maxRetries), { rc with retryCount := rc.retryCount + 1 }) := by
  have hw' : ¬ (now - rc.firstRetry > retryInterval) := not_lt.mpr hw
  by_cases hc : rc.retryCount + 1 ≤ maxRetries
  · have hc' : ¬ (rc.retryCount + 1 > maxRetries) := not_lt.mpr hc
    simp [retryCounter.checkRetry, retryCounter.checkRetryClock, h0, hw', hc, hc']
  · have hc' : rc.retryCount + 1 > maxRetries := not_le.mp hc
    simp [retryCounter.checkRetry, retryCounter.checkRetryClock, h0, hw', hc, hc']

theorem checkRetry_after_window (rc : retryCounter) (now : Int) (h0 : rc.retryCount ≠ 0)
    (hw : now - rc.firstRetry > retryInterval) :
    rc.checkRetry now = (true, { retryCount := 1, firstRetry := now }) := by
  simp [retryCounter.checkRetry, retryCounter.checkRetryClock, h0, hw, maxRetries]

/-- After a call at a time not before the previous calls, the counter is positive and
its window start is not after the call. -/
theorem checkRetry_reach (rc : retryCounter) (lo now : Int)
    (h : rc.retryCount = 0 ∨ (1 ≤ rc.retryCount ∧ rc.firstRetry ≤ lo)) (hlo : lo ≤ now) :
    1 ≤ (rc.checkRetry now).2.retryCount ∧ (rc.checkRetry now).2.firstRetry ≤ now := by
  rcases h with h | ⟨h1, h2⟩
  · rw [checkRetry_zero_count rc now h]; simp
  · have h0 : rc.retryCount ≠ 0 := by omega
    by_cases hw : now - rc.firstRetry > retryInterval
    · rw [checkRetry_after_window rc now h0 hw]; simp
    · rw [checkRetry_in_window rc now h0 (not_lt.mp hw)]
      constructor
      · show 1 ≤ rc.retryCount + 1
        omega
      · show rc.firstRetry ≤ now
        omega

/-- The state reached by calls at non-decreasing times, the last at `t`. -/
theorem checkRetryState_reach (rc : retryCounter) (lo : Int) (ts : List Int) (t : Int)
    (h : rc.retryCount = 0 ∨ (1 ≤ rc.retryCount ∧ rc.firstRetry ≤ lo))
    (hs : (lo :: (ts ++ [t])).Sorted (· ≤ ·)) :
    1 ≤ (checkRetryState rc (ts ++ [t])).retryCount ∧
      (checkRetryState rc (ts ++ [t])).firstRetry ≤ t := by
  induction ts generalizing rc lo with
  | nil =>
    have : lo ≤ t := by
      have := List.rel_of_sorted_cons hs t (by simp)
      exact this
    simpa [checkRetryState] using checkRetry_reach rc lo t h this
  | cons u ts ih =>
    have hu : lo ≤ u := List.rel_of_sorted_cons hs u (by simp)
    have hs' : (u :: (ts ++ [t])).Sorted (· ≤ ·) := List.Sorted.of_cons hs
    have := checkRetry_reach rc lo u h hu
    simpa [checkRetryState] using ih (rc.checkRetry u).2 u (Or.inr this) hs'

/-- In a sorted list every element is at most the last one. -/
theorem sorted_le_getLast (l : List Int) (hs : l.Sorted (· ≤ ·)) :
    ∀ u ∈ l, ∀ x ∈ l.getLast?, u ≤ x := by
  induction l with
  | nil => intro u hu; simp at hu
  | cons a l ih =>
    intro u hu x hx
    cases l with
    | nil =>
      simp at hu hx
      omega
    | cons b l =>
      have hx' : x ∈ (b :: l).getLast? := by simpa using hx
      rcases List.mem_cons.mp hu with rfl | hu'
      · exact List.rel_of_sorted_cons hs x (List.mem_of_mem_getLast? hx')
      · exact ih (List.Sorted.of_cons hs) u hu' x hx'

/-- Inside the window of a positive counter, the calls are numbered on from the count. -/
theorem checkRetryResults_in_window (rc : retryCounter) (ts : List Int) (n : Nat)
    (hn : rc.retryCount = (n : Int) + 1)
    (hw : ∀ t ∈ ts, t - rc.firstRetry ≤ retryInterval) (k : Nat) (hk : k < ts.length) :
    (checkRetryResults rc ts)[k]? = some (decide (n + k + 2 ≤ 5)) := by
  induction ts generalizing rc n k with
  | nil => simp at hk
  | cons t ts ih =>
    have h0 : rc.retryCount ≠ 0 := by omega
    have hstep := checkRetry_in_window rc t h0 (hw t (by simp))
    cases k with
    | zero =>
      simp only [checkRetryResults, hstep, List.getElem?_cons_zero, Option.some.injEq]
      simp only [hn, maxRetries]
      by_cases h5 : n + 2 ≤ 5
      · have : (n : Int) + 1 + 1 ≤ 5 := by omega
        simp [h5, this]
      · have : ¬ ((n : Int) + 1 + 1 ≤ 5) := by omega
        simp [h5, this]
    | succ k =>
      simp only [checkRetryResults, hstep, List.getElem?_cons_succ]
      have := ih { rc with retryCount := rc.retryCount + 1 } (n + 1)
        (by show rc.retryCount + 1 = ((n + 1 : Nat) : Int) + 1; push_cast; omega)
        (fun u hu => hw u (by simp [hu])) k (by simpa using hk)
      rw [this]
      congr 2
      simp only [eq_iff_iff]
      omega

/-- C1: on a fresh (zero-valued) `retryCounter`, for calls of `checkRetry` at
non-decreasing times `t1 ≤ ... ≤ tn` with `tn - t1` at most 30 seconds, the `k`-th call
(counted from 1; index `k` counted from 0 below) returns true if and only if it is one
of the first 5 calls. -/
theorem C1_first_five_in_window (ts : List Int) (hsorted : ts.Sorted (· ≤ ·))
    (hwin : ∀ t1 ∈ ts.head?, ∀ tn ∈ ts.getLast?, tn - t1 ≤ retryInterval)
    (k : Nat) (hk : k < ts.length) :
    (checkRetryResults retryCounter.zero ts)[k]? = some (decide (k + 1 ≤ 5)) := by
  cases ts with
  | nil => simp at hk
  | cons t ts =>
    have hfirst := checkRetry_zero_count retryCounter.zero t rfl
    cases k with
    | zero => simp [checkRetryResults, hfirst]
    | succ k =>
      simp only [checkRetryResults, hfirst, List.getElem?_cons_succ]
      have hk' : k < ts.length := by simpa using hk
      have hw : ∀ u ∈ ts, u - t ≤ retryInterval := by
        intro u hu
        cases hl : (t :: ts).getLast? with
        | none => simp at hl
        | some x =>
          have hspan := hwin t (by simp) x (by simp [hl])
          have hle := sorted_le_getLast (t :: ts) hsorted u (by simp [hu]) x (by simp [hl])
          omega
      have := checkRetryResults_in_window { retryCount := 1, firstRetry := t } ts 0
        (by simp) hw k hk'
      rw [this]
      congr 2
      simp only [eq_iff_iff]
      omega

/-- C1 at seven calls within 30 seconds: the sixth call is denied. -/
theorem C1_first_five_in_window_witness :
    ([0, 10, 20, 30, 40, 50, 30000000000] : List Int).Sorted (· ≤ ·) ∧
    (30000000000 : Int) - 0 ≤ retryInterval ∧
    (checkRetryResults retryCounter.zero [0, 10, 20, 30, 40, 50, 30000000000])[5]? =
      some false :=
  ⟨by decide, by decide,
    C1_first_five_in_window [0, 10, 20, 30, 40, 50, 30000000000] (by decide)
      (by intro a ha b hb; simp at ha hb; subst ha; subst hb; decide) 5 (by decide)⟩

/-- C2: in a state reached from the zero value by calls of `checkRetry` at
non-decreasing times, the last at `t` (whether or not the budget has denied), a call at
`t'` more than 30 seconds after `t` returns true and leaves the counter exactly as a
first call at `t'` on a fresh counter does (`retryCount = 1`, `firstRetry = t'`), so all
later calls give the results they give after that first call. -/
theorem C2_reset_after_gap (ts : List Int) (t t' : Int)
    (hsorted : (ts ++ [t]).Sorted (· ≤ ·)) (hgap : t' - t > retryInterval) :
    (checkRetryState retryCounter.zero (ts ++ [t])).checkRetry t' =
        (true, { retryCount := 1, firstRetry := t' }) ∧
      (checkRetryState retryCounter.zero (ts ++ [t])).checkRetry t' =
        retryCounter.zero.checkRetry t' ∧
      ∀ later : List Int,
        checkRetryResults (checkRetryState retryCounter.zero (ts ++ [t])) (t' :: later) =
          checkRetryResults retryCounter.zero (t' :: later) := by
  have hreach : 1 ≤ (checkRetryState retryCounter.zero (ts ++ [t])).retryCount ∧
      (checkRetryState retryCounter.zero (ts ++ [t])).firstRetry ≤ t := by
    cases ts with
    | nil =>
      simpa [checkRetryState] using
        checkRetry_reach retryCounter.zero t t (Or.inl rfl) (le_refl t)
    | cons u ts =>
      have h1 := checkRetry_reach retryCounter.zero u u (Or.inl rfl) (le_refl u)
      have := checkRetryState_reach (retryCounter.zero.checkRetry u).2 u ts t (Or.inr h1)
        (by simpa using hsorted)
      simpa [checkRetryState] using this
  have h0 : (checkRetryState retryCounter.zero (ts ++ [t])).retryCount ≠ 0 := by omega
  have hw : t' - (checkRetryState retryCounter.zero (ts ++ [t])).firstRetry > retryInterval := by
    omega
  have hcall := checkRetry_after_window _ t' h0 hw
  have hfresh := checkRetry_zero_count retryCounter.zero t' rfl
  refine ⟨hcall, by rw [hcall, hfresh], ?_⟩
  intro later
  simp only [checkRetryResults, hcall, hfresh]

/-- C2 at a counter that six calls at time 0 have driven to denial. -/
theorem C2_reset_after_gap_witness :
    ([0, 0, 0, 0, 0] ++ [0] : List Int).Sorted (· ≤ ·) ∧
    (30000000001 : Int) - 0 > retryInterval ∧
    (checkRetryResults retryCounter.zero ([0, 0, 0, 0, 0] ++ [0]))[5]? = some false ∧
    (checkRetryState retryCounter.zero ([0, 0, 0, 0, 0] ++ [0])).checkRetry 30000000001 =
      (true, { retryCount := 1, firstRetry := 30000000001 }) :=
  ⟨by decide, by decide, by decide,
    (C2_reset_after_gap [0, 0, 0, 0, 0] 0 30000000001 (by decide) (by decide)).1⟩

/-! ## The subprocess activity and the retry window -/

theorem countIn_nil (lo hi : Int) : countIn lo hi [] = 0 := rfl

theorem countIn_cons (lo hi t : Int) (l : List Int) :
    countIn lo hi (t :: l) = (if lo ≤ t ∧ t ≤ hi then 1 else 0) + countIn lo hi l := by
  by_cases h : lo ≤ t ∧ t ≤ hi
  · have h' : (decide (lo ≤ t) && decide (t ≤ hi)) = true := by simp [h.1, h.2]
    simp [countIn, List.filter_cons, h', h]
    omega
  · have h' : (decide (lo ≤ t) && decide (t ≤ hi)) = false := by
      rcases not_and_or.mp h with h1 | h1 <;> simp [h1]
    simp [countIn, List.filter_cons, h', h]

theorem countIn_eq_zero (lo hi : Int) (l : List Int) (h : ∀ t ∈ l, hi < t) :
    countIn lo hi l = 0 := by
  induction l with
  | nil => rfl
  | cons t l ih =>
    have ht : ¬ (lo ≤ t ∧ t ≤ hi) := by
      have := h t (by simp)
      omega
    rw [countIn_cons, if_neg ht, ih (fun u hu => h u (by simp [hu]))]

theorem ffmpegLoop_done (rc : retryCounter) (now : Int) (rest : List (Int × Bool)) :
    ffmpegLoop rc ((now, true) :: rest) = [] := by
  simp [ffmpegLoop, ffmpegIter]

theorem ffmpegLoop_granted (rc : retryCounter) (now : Int) (rest : List (Int × Bool))
    (h : (rc.checkRetry now).1 = true) :
    ffmpegLoop rc ((now, false) :: rest) = now :: ffmpegLoop (rc.checkRetry now).2 rest := by
  simp [ffmpegLoop, ffmpegIter, h]

theorem ffmpegLoop_denied (rc : retryCounter) (now : Int) (rest : List (Int × Bool))
    (h : (rc.checkRetry now).1 = false) :
    ffmpegLoop rc ((now, false) :: rest) = [] := by
  simp [ffmpegLoop, ffmpegIter, h]

theorem ffmpegLoopState_done (rc : retryCounter) (now : Int) (rest : List (Int × Bool)) :
    ffmpegLoopState rc ((now, true) :: rest) = rc := by
  simp [ffmpegLoopState, ffmpegIter]

theorem ffmpegLoopState_granted (rc : retryCounter) (now : Int) (rest : List (Int × Bool))
    (h : (rc.checkRetry now).1 = true) :
    ffmpegLoopState rc ((now, false) :: rest) =
      ffmpegLoopState (rc.checkRetry now).2 rest := by
  simp [ffmpegLoopState, ffmpegIter, h]

theorem ffmpegLoopState_denied (rc : retryCounter) (now : Int) (rest : List (Int × Bool))
    (h : (rc.checkRetry now).1 = false) :
    ffmpegLoopState rc ((now, false) :: rest) = (rc.checkRetry now).2 := by
  simp [ffmpegLoopState, ffmpegIter, h]

/-- Every relaunch happens at one of the exit times. -/
theorem ffmpegLoop_subset (rc : retryCounter) (exits : List (Int × Bool)) :
    ∀ t ∈ ffmpegLoop rc exits, t ∈ exits.map Prod.fst := by
  induction exits generalizing rc with
  | nil => intro t ht; simp [ffmpegLoop] at ht
  | cons e rest ih =>
    obtain ⟨now, done⟩ := e
    intro t ht
    cases done with
    | true => simp [ffmpegLoop_done] at ht
    | false =>
      cases hc : (rc.checkRetry now).1 with
      | false => simp [ffmpegLoop_denied rc now rest hc] at ht
      | true =>
        rw [ffmpegLoop_granted rc now rest hc] at ht
        rcases List.mem_cons.mp ht with rfl | ht'
        · simp
        · have := ih _ t ht'
          simp only [List.map_cons, List.mem_cons]
          exact Or.inr this

/-- The relaunches of a loop whose counter is positive, counted in an interval of the
length of the retry interval: at most 9 in all, at most the rest of the budget plus 5
when the interval begins inside the current window, and at most the rest of the budget
when it begins no later than the window. -/
theorem ffmpegLoop_window (exits : List (Int × Bool)) :
    ∀ (rc : retryCounter) (a : Int), 1 ≤ rc.retryCount →
      (exits.map Prod.fst).Sorted (· ≤ ·) →
      countIn a (a + retryInterval) (ffmpegLoop rc exits) ≤ 9 ∧
      (a ≤ rc.firstRetry + retryInterval →
        countIn a (a + retryInterval) (ffmpegLoop rc exits) ≤ (5 - rc.retryCount).toNat + 5) ∧
      (a ≤ rc.firstRetry →
        countIn a (a + retryInterval) (ffmpegLoop rc exits) ≤ (5 - rc.retryCount).toNat) := by
  induction exits with
  | nil => intro rc a _ _; simp [ffmpegLoop, countIn_nil]
  | cons e rest ih =>
    obtain ⟨now, done⟩ := e
    intro rc a hc hs
    have hs' : (rest.map Prod.fst).Sorted (· ≤ ·) := List.Sorted.of_cons hs
    have hge : ∀ t ∈ rest.map Prod.fst, now ≤ t := fun t ht => List.rel_of_sorted_cons hs t ht
    cases done with
    | true => rw [ffmpegLoop_done]; simp [countIn_nil]
    | false =>
      have h0 : rc.retryCount ≠ 0 := by omega
      by_cases hw : now - rc.firstRetry > retryInterval
      · have hcall := checkRetry_after_window rc now h0 hw
        have hg : (rc.checkRetry now).1 = true := by rw [hcall]
        rw [ffmpegLoop_granted rc now rest hg, hcall, countIn_cons]
        dsimp only
        obtain ⟨_, _, i3⟩ := ih { retryCount := 1, firstRetry := now } a (by simp) hs'
        simp only at i3
        have i1 := (ih { retryCount := 1, firstRetry := now } a (by simp) hs').1
        refine ⟨?_, ?_, ?_⟩
        · by_cases ha : a ≤ now
          · have := i3 ha
            split <;> omega
          · split <;> omega
        · intro h2
          have := i3 (by omega)
          split <;> omega
        · intro h3
          have hz : countIn a (a + retryInterval)
              (ffmpegLoop { retryCount := 1, firstRetry := now } rest) = 0 :=
            countIn_eq_zero _ _ _ (fun t ht => by
              have := hge t (ffmpegLoop_subset _ _ t ht)
              omega)
          rw [hz]
          split <;> omega
      · have hw' : now - rc.firstRetry ≤ retryInterval := not_lt.mp hw
        have hcall := checkRetry_in_window rc now h0 hw'
        by_cases h5 : rc.retryCount + 1 ≤ maxRetries
        · have hg : (rc.checkRetry now).1 = true := by rw [hcall]; simp [h5]
          rw [ffmpegLoop_granted rc now rest hg, hcall, countIn_cons]
          dsimp only
          obtain ⟨i1, i2, i3⟩ :=
            ih { rc with retryCount := rc.retryCount + 1 } a (by show 1 ≤ rc.retryCount + 1; omega) hs'
          simp only at i1 i2 i3
          simp only [maxRetries] at h5
          refine ⟨?_, ?_, ?_⟩
          · by_cases ha : a ≤ now ∧ now ≤ a + retryInterval
            · have := i2 (by omega)
              rw [if_pos ha]
              omega
            · rw [if_neg ha]
              omega
          · intro h2
            have := i2 h2
            split <;> omega
          · intro h3
            have := i3 h3
            split <;> omega
        · have hd : (rc.checkRetry now).1 = false := by rw [hcall]; simp [h5]
          rw [ffmpegLoop_denied rc now rest hd]
          simp [countIn_nil]

theorem retryInterval_nonneg : (0 : Int) ≤ retryInterval := by decide

/-- The relaunches inside the 30 seconds that follow the start of any window the loop
reaches: at most 5. The window reached after the exits `p` is either the current one or
starts after it has elapsed. -/
theorem ffmpegLoop_aligned (p : List (Int × Bool)) :
    ∀ (rc : retryCounter) (q : List (Int × Bool)), 1 ≤ rc.retryCount →
      ((p ++ q).map Prod.fst).Sorted (· ≤ ·) →
      ((ffmpegLoopState rc p).firstRetry = rc.firstRetry ∨
        rc.firstRetry + retryInterval < (ffmpegLoopState rc p).firstRetry) ∧
      countIn (ffmpegLoopState rc p).firstRetry
        ((ffmpegLoopState rc p).firstRetry + retryInterval) (ffmpegLoop rc (p ++ q)) ≤ 5 := by
  have hW := retryInterval_nonneg
  induction p with
  | nil =>
    intro rc q hc hs
    refine ⟨Or.inl rfl, ?_⟩
    have := (ffmpegLoop_window q rc rc.firstRetry hc (by simpa using hs)).2.2 (le_refl _)
    simp only [ffmpegLoopState, List.nil_append]
    omega
  | cons e p ih =>
    obtain ⟨now, done⟩ := e
    intro rc q hc hs
    have hs' : ((p ++ q).map Prod.fst).Sorted (· ≤ ·) := List.Sorted.of_cons hs
    have hall := (ffmpegLoop_window ((now, done) :: (p ++ q)) rc rc.firstRetry hc hs).2.2
      (le_refl _)
    cases done with
    | true =>
      rw [ffmpegLoopState_done, List.cons_append, ffmpegLoop_done]
      exact ⟨Or.inl rfl, by simp [countIn_nil]⟩
    | false =>
      have h0 : rc.retryCount ≠ 0 := by omega
      by_cases hw : now - rc.firstRetry > retryInterval
      · have hcall := checkRetry_after_window rc now h0 hw
        have hg : (rc.checkRetry now).1 = true := by rw [hcall]
        rw [ffmpegLoopState_granted rc now p hg, List.cons_append,
          ffmpegLoop_granted rc now (p ++ q) hg, hcall, countIn_cons]
        dsimp only
        obtain ⟨j1, j2⟩ := ih { retryCount := 1, firstRetry := now } q (by simp) hs'
        simp only at j1
        have hwin := (ffmpegLoop_window (p ++ q) { retryCount := 1, firstRetry := now } now
          (by simp) hs').2.2 (le_refl _)
        simp only at hwin
        rcases j1 with j1 | j1
        · refine ⟨Or.inr (by omega), ?_⟩
          rw [j1]
          split <;> omega
        · refine ⟨Or.inr (by omega), ?_⟩
          split <;> omega
      · have hw' : now - rc.firstRetry ≤ retryInterval := not_lt.mp hw
        have hcall := checkRetry_in_window rc now h0 hw'
        by_cases h5 : rc.retryCount + 1 ≤ maxRetries
        · have hg : (rc.checkRetry now).1 = true := by rw [hcall]; simp [h5]
          obtain ⟨j1, j2⟩ := ih (rc.checkRetry now).2 q
            (by rw [hcall]; show 1 ≤ rc.retryCount + 1; omega) hs'
          have hf : (rc.checkRetry now).2.firstRetry = rc.firstRetry := by rw [hcall]
          rw [hf] at j1
          rw [ffmpegLoopState_granted rc now p hg]
          refine ⟨j1, ?_⟩
          rcases j1 with j1 | j1
          · rw [j1, List.cons_append]
            omega
          · rw [List.cons_append, ffmpegLoop_granted rc now (p ++ q) hg, countIn_cons]
            split <;> omega
        · have hd : (rc.checkRetry now).1 = false := by rw [hcall]; simp [h5]
          rw [ffmpegLoopState_denied rc now p hd, List.cons_append,
            ffmpegLoop_denied rc now (p ++ q) hd, hcall]
          exact ⟨Or.inl rfl, by simp [countIn_nil]⟩

/-- C3 (as stated, refuted): the subprocess exits at 0 s, at 29.0, 29.1, 29.2, 29.3 s
and at 30.1, 30.2, 30.3, 30.4, 30.5 s, with no shutdown requested. All ten exits are
followed by a relaunch (the exit at 30.1 s opens a new window), and the interval of
length 30 seconds that begins at 29 s contains 9 of these relaunches, more than 5. -/
theorem C3_sliding_window_counterexample :
    (([(0, false), (29000000000, false), (29100000000, false),
        (29200000000, false), (29300000000, false), (30100000000, false),
        (30200000000, false), (30300000000, false), (30400000000, false),
        (30500000000, false)] : List (Int × Bool)).map
          Prod.fst).Sorted (· ≤ ·) ∧
    countIn 29000000000 (29000000000 + retryInterval)
        (ffmpegLoop retryCounter.zero
          [(0, false), (29000000000, false), (29100000000, false),
            (29200000000, false), (29300000000, false), (30100000000, false),
            (30200000000, false), (30300000000, false), (30400000000, false),
            (30500000000, false)]) = 9 ∧
    ¬ (countIn 29000000000 (29000000000 + retryInterval)
        (ffmpegLoop retryCounter.zero
          [(0, false), (29000000000, false), (29100000000, false),
            (29200000000, false), (29300000000, false), (30100000000, false),
            (30200000000, false), (30300000000, false), (30400000000, false),
            (30500000000, false)]) ≤ 5) := by
  refine ⟨by decide, by decide, by decide⟩

/-- C3 (amended): in the subprocess activity of `runSubscribe`, for every
non-decreasing sequence of subprocess exit times, (1) no time interval of length 30
seconds contains more than 9 relaunches, and (2) the 30 seconds that begin at the start
of a window of the retry counter (the value of `firstRetry` after any non-empty initial
part of the exits) contain at most 5 relaunches: the subprocess is never re-invoked a
6th time inside one window of the counter. -/
theorem C3_relaunch_bounds (exits : List (Int × Bool))
    (hsorted : (exits.map Prod.fst).Sorted (· ≤ ·)) :
    (∀ a : Int,
      countIn a (a + retryInterval) (ffmpegLoop retryCounter.zero exits) ≤ 9) ∧
    (∀ p q : List (Int × Bool), exits = p ++ q → p ≠ [] →
      countIn (ffmpegLoopState retryCounter.zero p).firstRetry
        ((ffmpegLoopState retryCounter.zero p).firstRetry + retryInterval)
        (ffmpegLoop retryCounter.zero exits) ≤ 5) := by
  have hW := retryInterval_nonneg
  constructor
  · intro a
    cases exits with
    | nil => simp [ffmpegLoop, countIn_nil]
    | cons e rest =>
      obtain ⟨now, done⟩ := e
      cases done with
      | true => rw [ffmpegLoop_done]; simp [countIn_nil]
      | false =>
        have hcall := checkRetry_zero_count retryCounter.zero now rfl
        have hg : (retryCounter.zero.checkRetry now).1 = true := by rw [hcall]
        rw [ffmpegLoop_granted _ now rest hg, hcall, countIn_cons]
        dsimp only
        obtain ⟨i1, _, i3⟩ := ffmpegLoop_window rest { retryCount := 1, firstRetry := now } a
          (by simp) (List.Sorted.of_cons hsorted)
        simp only at i3
        by_cases ha : a ≤ now
        · have := i3 ha
          split <;> omega
        · split <;> omega
  · intro p q hpq hp
    subst hpq
    cases p with
    | nil => exact absurd rfl hp
    | cons e p =>
      obtain ⟨now, done⟩ := e
      cases done with
      | true => rw [List.cons_append, ffmpegLoop_done]; simp [countIn_nil]
      | false =>
        have hcall := checkRetry_zero_count retryCounter.zero now rfl
        have hg : (retryCounter.zero.checkRetry now).1 = true := by rw [hcall]
        have hs' : ((p ++ q).map Prod.fst).Sorted (· ≤ ·) := List.Sorted.of_cons hsorted
        rw [ffmpegLoopState_granted _ now p hg, List.cons_append,
          ffmpegLoop_granted _ now (p ++ q) hg, hcall, countIn_cons]
        dsimp only
        obtain ⟨j1, j2⟩ := ffmpegLoop_aligned p { retryCount := 1, firstRetry := now } q
          (by simp) hs'
        simp only at j1
        have hwin := (ffmpegLoop_window (p ++ q) { retryCount := 1, firstRetry := now } now
          (by simp) hs').2.2 (le_refl _)
        simp only at hwin
        rcases j1 with j1 | j1
        · rw [j1]
          split <;> omega
        · split <;> omega

/-- C3 (amended) at ten exits between 0 s and 30.5 s: the interval of 30 seconds that
begins at 29 s holds at most 9 relaunches. -/
theorem C3_relaunch_bounds_witness :
    (([(0, false), (29000000000, false), (29100000000, false),
        (29200000000, false), (29300000000, false), (30100000000, false),
        (30200000000, false), (30300000000, false), (30400000000, false),
        (30500000000, false)] : List (Int × Bool)).map
          Prod.fst).Sorted (· ≤ ·) ∧
    countIn 29000000000 (29000000000 + retryInterval)
      (ffmpegLoop retryCounter.zero
        [(0, false), (29000000000, false), (29100000000, false),
          (29200000000, false), (29300000000, false), (30100000000, false),
          (30200000000, false), (30300000000, false), (30400000000, false),
          (30500000000, false)]) ≤ 9 :=
  ⟨by decide,
    (C3_relaunch_bounds
      [(0, false), (29000000000, false), (29100000000, false),
        (29200000000, false), (29300000000, false), (30100000000, false),
        (30200000000, false), (30300000000, false), (30400000000, false),
        (30500000000, false)]
      (by decide)).1 29000000000⟩

/-! ## Publish ingress and discovery loop -/

/-- The test `HasSuffix` holds exactly of the strings that end with the suffix. -/
theorem HasSuffix_iff (s suffix : GoString) :
    HasSuffix s suffix = true ↔ ∃ pre : GoString, s = pre ++ suffix := by
  constructor
  · intro h
    simp only [HasSuffix, Bool.and_eq_true, decide_eq_true_eq, beq_iff_eq] at h
    refine ⟨s.take (s.length - suffix.length), ?_⟩
    conv_lhs => rw [← List.take_append_drop (s.length - suffix.length) s]
    rw [h.2]
  · rintro ⟨pre, rfl⟩
    simp [HasSuffix]

theorem startWorkers_eq_filter (added : List GoString) :
    startWorkers added = added.filter (fun stream => HasSuffix stream outSuffix) := by
  induction added with
  | nil => rfl
  | cons stream rest ih =>
    by_cases h : HasSuffix stream outSuffix = true
    · simp [startWorkers, List.filter_cons, h, ih]
    · simp [startWorkers, List.filter_cons, h, ih]

/-- C4: for every stream name received by `newPublish`, if the name ends with `"-out"`
no inbound bridge is started, and if it does not, exactly one inbound bridge is started,
for that name (segmenting `rtmp://localhost/<name>`); in particular one is started for
`"camA"` and none for `"camA-out"`. -/
theorem C4_publish_iff_no_suffix (streamName : GoString) :
    ((∃ pre : GoString, streamName = pre ++ ascii "-out") → newPublish streamName = []) ∧
    ((¬ ∃ pre : GoString, streamName = pre ++ ascii "-out") →
      newPublish streamName =
        [{ streamName := streamName, source := ascii "rtmp://localhost/" ++ streamName }]) ∧
    ((newPublish streamName).length = 1 ↔
      ¬ ∃ pre : GoString, streamName = pre ++ ascii "-out") ∧
    newPublish (ascii "camA") =
      [{ streamName := ascii "camA", source := ascii "rtmp://localhost/camA" }] ∧
    newPublish (ascii "camA-out") = [] := by
  have hiff := HasSuffix_iff streamName outSuffix
  simp only [outSuffix] at hiff
  refine ⟨?_, ?_, ?_, by decide, by decide⟩
  · intro h
    have := hiff.mpr h
    simp [newPublish, outSuffix, this]
  · intro h
    have : ¬ HasSuffix streamName (ascii "-out") = true := fun hs => h (hiff.mp hs)
    simp [newPublish, outSuffix, this]
  · by_cases hs : HasSuffix streamName (ascii "-out") = true
    · have h1 : ¬ ¬ ∃ pre : GoString, streamName = pre ++ ascii "-out" :=
        not_not.mpr (hiff.mp hs)
      simp [newPublish, outSuffix, hs, h1]
    · have h1 : ¬ ∃ pre : GoString, streamName = pre ++ ascii "-out" :=
        fun h => hs (hiff.mpr h)
      simp [newPublish, outSuffix, hs, h1]

/-- C5: for every decoded change-feed event, the outbound workers started by the
discovery loop are exactly the names of `Added` that end with `"-out"`, in order and
with multiplicity, whatever `Removed` holds; for the event
`{added: ["camA-out"], removed: []}` exactly one worker is started, for `"camA-out"`. -/
theorem C5_workers_are_suffixed_added (ch : Changefeed) :
    changefeedLoop [FeedRead.event ch] =
        ch.Added.filter (fun stream => HasSuffix stream outSuffix) ∧
    (∀ stream : GoString, stream ∈ changefeedLoop [FeedRead.event ch] ↔
      stream ∈ ch.Added ∧ ∃ pre : GoString, stream = pre ++ ascii "-out") ∧
    (∀ stream : GoString, (changefeedLoop [FeedRead.event ch]).count stream =
      if HasSuffix stream outSuffix then ch.Added.count stream else 0) ∧
    changefeedLoop [FeedRead.event { Added := [ascii "camA-out"], Removed := [] }] =
      [ascii "camA-out"] := by
  have heq : changefeedLoop [FeedRead.event ch] =
      ch.Added.filter (fun stream => HasSuffix stream outSuffix) := by
    simp [changefeedLoop, startWorkers_eq_filter]
  refine ⟨heq, ?_, ?_, by decide⟩
  · intro stream
    rw [heq, List.mem_filter, HasSuffix_iff]
    rfl
  · intro stream
    rw [heq]
    by_cases h : HasSuffix stream outSuffix = true
    · have hc : List.count stream (ch.Added.filter (fun stream => HasSuffix stream outSuffix)) =
          List.count stream ch.Added := List.count_filter h
      rw [hc, if_pos h]
    · rw [if_neg h]
      exact List.count_eq_zero_of_not_mem (fun hm => h (List.mem_filter.mp hm).2)

/-! ## Subscriber URL -/

/-- C6 (evaluation at the failing input): the base URL `http://localhost:2939`, without
a trailing `/`, passes the checks of `handleArgs`, and for the stream name `camA-out`
the URL built by `runSubscribe` is `http://localhost:2939camA-out`: the base URL and the
name with no `/` between them, which is not `<base-URL>/<streamName>`. With the default
base URL `http://localhost:2939/` the URL built is `http://localhost:2939/camA-out`. -/
theorem C6_subscriber_url_lacks_separator :
    handleArgs { Scheme := ascii "http", Host := ascii "localhost:2939", Path := [] } = true ∧
    URL.String { Scheme := ascii "http", Host := ascii "localhost:2939", Path := [] } =
      ascii "http://localhost:2939" ∧
    subscriberURL { Scheme := ascii "http", Host := ascii "localhost:2939", Path := [] }
      (ascii "camA-out") = ascii "http://localhost:2939camA-out" ∧
    subscriberURL { Scheme := ascii "http", Host := ascii "localhost:2939", Path := [] }
      (ascii "camA-out") ≠
        URL.String { Scheme := ascii "http", Host := ascii "localhost:2939", Path := [] } ++
          ascii "/" ++ ascii "camA-out" ∧
    subscriberURL { Scheme := ascii "http", Host := ascii "localhost:2939", Path := ascii "/" }
      (ascii "camA-out") = ascii "http://localhost:2939/camA-out" := by
  refine ⟨by decide, by decide, by decide, by decide, by decide⟩

/-! ## Outbound bridge worker: the schedule machine -/

theorem exec_nil (s : Bridge) : s.exec [] = s := rfl

theorem exec_cons (s : Bridge) (e : Event) (evs : List Event) :
    s.exec (e :: evs) = (s.step e).exec evs := rfl

/-- A step of the subprocess goroutine leaves the calling goroutine's side of the state
as it is. -/
theorem step_ffmpegExit_main (s : Bridge) (now : Int) :
    (s.step (Event.ffmpegExit now)).pc = s.pc ∧
    (s.step (Event.ffmpegExit now)).reads = s.reads ∧
    (s.step (Event.ffmpegExit now)).written = s.written ∧
    (s.step (Event.ffmpegExit now)).subscriptionDone = s.subscriptionDone ∧
    (s.step (Event.ffmpegExit now)).rOpen = s.rOpen ∧
    (s.step (Event.ffmpegExit now)).wOpen = s.wOpen := by
  unfold Bridge.step
  cases s.ffmpeg with
  | notStarted => simp
  | done => simp
  | running =>
    dsimp only
    rcases h : ffmpegIter s.subscriptionDone s.rc now with ⟨o, rc'⟩
    cases o <;> simp

/-! ## The read loop against the bounded pipe -/

theorem loop_exec_cons (cap : Nat) (s : PipeLoop) (e : LoopEvent) (evs : List LoopEvent) :
    s.exec cap (e :: evs) = (s.step cap e).exec cap evs := rfl

theorem loop_exec_append (cap : Nat) (s : PipeLoop) (evs evs' : List LoopEvent) :
    s.exec cap (evs ++ evs') = (s.exec cap evs).exec cap evs' := by
  simp [PipeLoop.exec, List.foldl_append]

theorem okBodies_cons_ok (code : Int) (body : GoString) (rest : List ReadResult)
    (h : code = StatusOK) :
    okBodies (ReadResult.resp code body :: rest) = body ++ okBodies rest := by
  simp [okBodies, ReadResult.isOK, ReadResult.body, h]

theorem okBodies_cons_stop (r : ReadResult) (rest : List ReadResult) (h : r.isOK = false) :
    okBodies (r :: rest) = [] := by
  simp [okBodies, h]

/-- No event changes what the loop will have written and read when it stops. -/
theorem loop_step_target (cap : Nat) (s : PipeLoop) (e : LoopEvent) :
    (s.step cap e).target = s.target ∧ (s.step cap e).readsTarget = s.readsTarget := by
  cases e with
  | drain n => simp [PipeLoop.step, PipeLoop.target, PipeLoop.readsTarget]
  | advance k =>
    unfold PipeLoop.step
    cases hpc : s.pc with
    | stopped => simp
    | reading =>
      cases hu : s.upcoming with
      | nil => simp
      | cons r rest =>
        cases r with
        | err eos =>
          simp [PipeLoop.target, PipeLoop.readsTarget, hpc, hu, okBodies, ReadResult.isOK]
        | resp code body =>
          by_cases hc : code = StatusOK
          · simp [PipeLoop.target, PipeLoop.readsTarget, hpc, hu, hc, okBodies,
              ReadResult.isOK, ReadResult.body]
            omega
          · simp [PipeLoop.target, PipeLoop.readsTarget, hpc, hu, hc, okBodies,
              ReadResult.isOK]
    | copying rest =>
      have hsplit := List.take_append_drop (min k (min rest.length (cap - s.buffered))) rest
      by_cases hd : rest.drop (min k (min rest.length (cap - s.buffered))) = []
      · have ht : rest.take (min k (min rest.length (cap - s.buffered))) = rest := by
          rw [hd, List.append_nil] at hsplit
          exact hsplit
        simp only [PipeLoop.target, PipeLoop.readsTarget, hpc, hd, if_true, ht]
        simp
      · simp only [PipeLoop.target, PipeLoop.readsTarget, hpc, hd, if_false]
        constructor
        · rw [List.append_assoc, ← List.append_assoc (List.take _ rest), hsplit]
        · trivial

theorem loop_exec_target (cap : Nat) (evs : List LoopEvent) :
    ∀ s : PipeLoop, (s.exec cap evs).target = s.target ∧
      (s.exec cap evs).readsTarget = s.readsTarget := by
  induction evs with
  | nil => intro s; exact ⟨rfl, rfl⟩
  | cons e evs ih =>
    intro s
    obtain ⟨h1, h2⟩ := loop_step_target cap s e
    obtain ⟨i1, i2⟩ := ih (s.step cap e)
    rw [loop_exec_cons]
    exact ⟨i1.trans h1, i2.trans h2⟩

theorem loop_step_willStop (cap : Nat) (s : PipeLoop) (e : LoopEvent) (h : s.WillStop) :
    (s.step cap e).WillStop := by
  cases e with
  | drain n => simpa [PipeLoop.step, PipeLoop.WillStop] using h
  | advance k =>
    unfold PipeLoop.step
    cases hpc : s.pc with
    | stopped => exact h
    | reading =>
      cases hu : s.upcoming with
      | nil => exact h
      | cons r rest =>
        cases r with
        | err eos => simp [PipeLoop.WillStop]
        | resp code body =>
          by_cases hc : code = StatusOK
          · rcases h with h | ⟨r', hr', hok⟩
            · rw [hpc] at h; exact absurd h (by simp)
            · rw [hu] at hr'
              rcases List.mem_cons.mp hr' with rfl | hr''
              · simp [ReadResult.isOK, hc] at hok
              · simp only [hc, if_true]
                exact Or.inr ⟨r', hr'', hok⟩
          · simp [PipeLoop.WillStop, hc]
    | copying rest =>
      rcases h with h | h
      · rw [hpc] at h; exact absurd h (by simp)
      · exact Or.inr h

theorem loop_exec_willStop (cap : Nat) (evs : List LoopEvent) :
    ∀ s : PipeLoop, s.WillStop → (s.exec cap evs).WillStop := by
  induction evs with
  | nil => intro s h; exact h
  | cons e evs ih =>
    intro s h
    rw [loop_exec_cons]
    exact ih _ (loop_step_willStop cap s e h)

/-- A copy in progress runs to its end when the pipe is read: the loop is back at
`sub.Read()` with the same results to come. -/
theorem loop_copy_completes (cap : Nat) (hcap : 1 ≤ cap) (n : Nat) :
    ∀ (rest : GoString) (s : PipeLoop), rest.length ≤ n → s.pc = LoopPC.copying rest →
      ∃ evs : List LoopEvent, (s.exec cap evs).pc = LoopPC.reading ∧
        (s.exec cap evs).upcoming = s.upcoming := by
  induction n with
  | zero =>
    intro rest s hlen hpc
    have hrest : rest = [] := List.length_eq_zero.mp (Nat.le_zero.mp hlen)
    refine ⟨[LoopEvent.advance 0], ?_⟩
    simp [PipeLoop.exec, PipeLoop.step, hpc, hrest]
  | succ n ih =>
    intro rest s hlen hpc
    by_cases hle : rest.length ≤ cap
    · refine ⟨[LoopEvent.drain s.buffered, LoopEvent.advance rest.length], ?_⟩
      simp [PipeLoop.exec, PipeLoop.step, hpc, hle]
    · have hlt : cap < rest.length := not_le.mp hle
      have hm2 : min rest.length cap = cap := by omega
      have hshort : (rest.drop cap).length ≤ n := by
        rw [List.length_drop]
        omega
      have hstep : (s.step cap (LoopEvent.drain s.buffered)).step cap
          (LoopEvent.advance rest.length) =
          { s with written := s.written ++ rest.take cap, buffered := cap,
                   pc := LoopPC.copying (rest.drop cap) } := by
        simp [PipeLoop.step, hpc, hm2, hle, Nat.le_of_lt hlt]
      obtain ⟨evs, h1, h2⟩ := ih (rest.drop cap)
        ((s.step cap (LoopEvent.drain s.buffered)).step cap (LoopEvent.advance rest.length))
        hshort (by rw [hstep])
      refine ⟨LoopEvent.drain s.buffered :: LoopEvent.advance rest.length :: evs, ?_⟩
      rw [loop_exec_cons, loop_exec_cons]
      refine ⟨h1, ?_⟩
      rw [h2, hstep]

/-- A loop at `sub.Read()` that has a stopping result to come reaches it when the pipe
is read. -/
theorem loop_reading_stops (cap : Nat) (hcap : 1 ≤ cap) (results : List ReadResult) :
    ∀ s : PipeLoop, s.upcoming = results → s.pc = LoopPC.reading →
      (∃ r ∈ results, r.isOK = false) →
      ∃ evs : List LoopEvent, (s.exec cap evs).pc = LoopPC.stopped := by
  induction results with
  | nil => intro s _ _ h; obtain ⟨r, hr, _⟩ := h; simp at hr
  | cons r rest ih =>
    intro s hu hpc hstop
    cases r with
    | err eos =>
      refine ⟨[LoopEvent.advance 0], ?_⟩
      simp [PipeLoop.exec, PipeLoop.step, hpc, hu]
    | resp code body =>
      by_cases hc : code = StatusOK
      · have hstop' : ∃ r ∈ rest, r.isOK = false := by
          obtain ⟨r', hr', hok⟩ := hstop
          rcases List.mem_cons.mp hr' with rfl | hr''
          · simp [ReadResult.isOK, hc] at hok
          · exact ⟨r', hr'', hok⟩
        have hstep : s.step cap (LoopEvent.advance 0) =
            { s with upcoming := rest, reads := s.reads + 1, pc := LoopPC.copying body } := by
          simp [PipeLoop.step, hpc, hu, hc]
        obtain ⟨evs1, h1, h2⟩ := loop_copy_completes cap hcap body.length body
          (s.step cap (LoopEvent.advance 0)) (le_refl _) (by rw [hstep])
        obtain ⟨evs2, h3⟩ := ih ((s.step cap (LoopEvent.advance 0)).exec cap evs1)
          (by rw [h2, hstep]) h1 hstop'
        refine ⟨LoopEvent.advance 0 :: (evs1 ++ evs2), ?_⟩
        rw [loop_exec_cons, loop_exec_append]
        exact h3
      · refine ⟨[LoopEvent.advance 0], ?_⟩
        simp [PipeLoop.exec, PipeLoop.step, hpc, hu, hc]

/-- From every state with a stopping result to come, the loop stops when the pipe is
read. -/
theorem loop_willStop_stops (cap : Nat) (hcap : 1 ≤ cap) (s : PipeLoop) (h : s.WillStop) :
    ∃ evs : List LoopEvent, (s.exec cap evs).pc = LoopPC.stopped := by
  cases hpc : s.pc with
  | stopped => exact ⟨[], hpc⟩
  | reading =>
    rcases h with h | h
    · rw [hpc] at h; exact absurd h (by simp)
    · exact loop_reading_stops cap hcap s.upcoming s rfl hpc h
  | copying rest =>
    rcases h with h | h
    · rw [hpc] at h; exact absurd h (by simp)
    · obtain ⟨evs1, h1, h2⟩ := loop_copy_completes cap hcap rest.length rest s (le_refl _) hpc
      obtain ⟨evs2, h3⟩ := loop_reading_stops cap hcap s.upcoming (s.exec cap evs1) h2 h1 h
      exact ⟨evs1 ++ evs2, by rw [loop_exec_append]; exact h3⟩

/-- With a body longer than the pipe buffer and nothing reading the pipe, the copy
fills the buffer and stands still. -/
theorem loop_fill (cap : Nat) (body : GoString) (rest : List ReadResult)
    (h : cap < body.length) :
    (PipeLoop.init (ReadResult.resp StatusOK body :: rest)).exec cap
        [LoopEvent.advance 0, LoopEvent.advance body.length] =
      { pc := LoopPC.copying (body.drop cap), upcoming := rest, reads := 1,
        written := body.take cap, buffered := cap } := by
  have hm : min body.length cap = cap := Nat.min_eq_right (Nat.le_of_lt h)
  have hd : body.drop cap ≠ [] := by
    intro hnil
    have := congrArg List.length hnil
    simp at this
    omega
  simp [PipeLoop.exec, PipeLoop.step, PipeLoop.init, hm, hd]

theorem loop_full_stalls (cap : Nat) (s : PipeLoop) (rest : GoString)
    (hpc : s.pc = LoopPC.copying rest) (hne : rest ≠ []) (hfull : s.buffered = cap)
    (ks : List Nat) : s.exec cap (ks.map LoopEvent.advance) = s := by
  induction ks with
  | nil => rfl
  | cons k ks ih =>
    have hstep : s.step cap (LoopEvent.advance k) = s := by
      cases s with
      | mk pc upcoming reads written buffered =>
        simp only at hpc hfull
        subst hpc; subst hfull
        simp [PipeLoop.step, hne]
    rw [List.map_cons, loop_exec_cons, hstep, ih]

/-- C7 (as stated, refuted): the subscriber delivers a status-200 response with a body
of 80001 bytes and then the end-of-stream error, the pipe buffer holds 65536 bytes and
nothing reads the pipe. After one read the copy of line 138 has written 65536 bytes, not
the 80001 bytes of the body that precedes the stopping result, and however often the
calling goroutine is scheduled it stands there: the stopping result is never read. -/
theorem C7_full_pipe_counterexample :
    stalledLoop.reads = 1 ∧
    stalledLoop.written.length = 65536 ∧
    (okBodies longBodyThenEOS).length = 80001 ∧
    stalledLoop.written ≠ okBodies longBodyThenEOS ∧
    stalledLoop.pc ≠ LoopPC.stopped ∧
    (∀ ks : List Nat,
      stalledLoop.exec linuxPipeBuffer (ks.map LoopEvent.advance) = stalledLoop) := by
  have hlen : (List.replicate 80001 (0 : UInt8)).length = 80001 := List.length_replicate _ _
  have hfill : stalledLoop =
      { pc := LoopPC.copying ((List.replicate 80001 (0 : UInt8)).drop linuxPipeBuffer),
        upcoming := [ReadResult.err true], reads := 1,
        written := (List.replicate 80001 (0 : UInt8)).take linuxPipeBuffer,
        buffered := linuxPipeBuffer } := by
    have := loop_fill linuxPipeBuffer (List.replicate 80001 (0 : UInt8)) [ReadResult.err true]
      (by rw [hlen]; decide)
    rw [hlen] at this
    exact this
  have hbodies : okBodies longBodyThenEOS = List.replicate 80001 (0 : UInt8) := by
    rw [longBodyThenEOS, okBodies_cons_ok _ _ _ rfl,
      okBodies_cons_stop (ReadResult.err true) [] rfl, List.append_nil]
  have hwritten : stalledLoop.written.length = 65536 := by
    rw [hfill]
    show ((List.replicate 80001 (0 : UInt8)).take linuxPipeBuffer).length = 65536
    rw [List.length_take, hlen]
    decide
  have hrest : (List.replicate 80001 (0 : UInt8)).drop linuxPipeBuffer ≠ [] := by
    intro h
    have := congrArg List.length h
    rw [List.length_drop, hlen] at this
    revert this
    decide
  have hpc : stalledLoop.pc =
      LoopPC.copying ((List.replicate 80001 (0 : UInt8)).drop linuxPipeBuffer) := by
    rw [hfill]
  refine ⟨by rw [hfill], hwritten, by rw [hbodies, hlen], ?_, ?_, ?_⟩
  · intro h
    have := congrArg List.length h
    rw [hwritten, hbodies, hlen] at this
    revert this
    decide
  · rw [hpc]
    exact fun h => LoopPC.noConfusion h
  · intro ks
    have hfull : stalledLoop.buffered = linuxPipeBuffer := by rw [hfill]
    exact loop_full_stalls linuxPipeBuffer stalledLoop _ hpc hrest hfull ks

/-- C7 (amended): for every pipe buffer size, every sequence of read results and every
schedule of the read loop and of the reader of the pipe: (1) the bytes written to the
pipe are at every moment an initial part of the concatenation, in read order, of the
bodies of the status-200 responses that precede the first result that is an error or
has another status, so the body of a non-200 response is never written; (2) the number
of reads never exceeds the position of that first stopping result, so no read follows
it; (3) once the loop has left by `break`, the bytes written are exactly that
concatenation and the stopping result was the last read; (4) when there is a stopping
result and the pipe is read, the loop does get there from every state it has reached.
With the results 200, 503, 200 the first body alone is written and two reads are
made. -/
theorem C7_bytes_in_order_bounded_pipe (cap : Nat) (results : List ReadResult)
    (evs : List LoopEvent) :
    (∃ more : GoString,
      okBodies results = ((PipeLoop.init results).exec cap evs).written ++ more) ∧
    ((PipeLoop.init results).exec cap evs).reads ≤
      (results.takeWhile ReadResult.isOK).length + 1 ∧
    (((PipeLoop.init results).exec cap evs).pc = LoopPC.stopped →
      ((PipeLoop.init results).exec cap evs).written = okBodies results ∧
      ((PipeLoop.init results).exec cap evs).reads =
        (results.takeWhile ReadResult.isOK).length + 1) ∧
    (1 ≤ cap → (∃ r ∈ results, r.isOK = false) →
      ∃ more : List LoopEvent,
        (((PipeLoop.init results).exec cap evs).exec cap more).pc = LoopPC.stopped) ∧
    ((PipeLoop.init
        [ReadResult.resp 200 [1, 2], ReadResult.resp 503 [9], ReadResult.resp 200 [3]]).exec
      linuxPipeBuffer
      [LoopEvent.advance 0, LoopEvent.advance 2, LoopEvent.advance 0, LoopEvent.advance 0]) =
      { pc := LoopPC.stopped, upcoming := [ReadResult.resp 200 [3]], reads := 2,
        written := [1, 2], buffered := 2 } := by
  obtain ⟨ht, hr⟩ := loop_exec_target cap evs (PipeLoop.init results)
  have ht0 : (PipeLoop.init results).target = okBodies results := by
    simp [PipeLoop.target, PipeLoop.init]
  have hr0 : (PipeLoop.init results).readsTarget =
      (results.takeWhile ReadResult.isOK).length + 1 := by
    simp [PipeLoop.readsTarget, PipeLoop.init]
  rw [ht0] at ht
  rw [hr0] at hr
  refine ⟨?_, ?_, ?_, ?_, by decide⟩
  · exact ⟨_, ht.symm⟩
  · rw [← hr]
    exact Nat.le_add_right _ _
  · intro hpc
    constructor
    · rw [← ht]
      simp [PipeLoop.target, hpc]
    · rw [← hr]
      simp [PipeLoop.readsTarget, hpc]
  · intro hcap hstop
    exact loop_willStop_stops cap hcap _
      (loop_exec_willStop cap evs _ (Or.inr hstop))

theorem exec_okReads (bodies : List GoString) :
    ∀ s : Bridge, s.pc = MainPC.reading →
      (s.exec (okReads bodies)).pc = MainPC.reading ∧
      (s.exec (okReads bodies)).reads = s.reads + bodies.length ∧
      (s.exec (okReads bodies)).written = s.written ++ bodies.flatten ∧
      (s.exec (okReads bodies)).wOpen = s.wOpen ∧
      (s.exec (okReads bodies)).denied = s.denied := by
  induction bodies with
  | nil => intro s h; simp [okReads, exec_nil, h]
  | cons body bodies ih =>
    intro s h
    have hstep : s.step (Event.read (ReadResult.resp StatusOK body)) =
        { s with reads := s.reads + 1, written := s.written ++ body } := by
      simp [Bridge.step, h, Bridge.readIter]
    obtain ⟨i1, i2, i3, i4, i5⟩ :=
      ih { s with reads := s.reads + 1, written := s.written ++ body } h
    simp only [okReads] at i1 i2 i3 i4 i5 ⊢
    rw [List.map_cons, exec_cons, hstep]
    refine ⟨i1, ?_, ?_, i4, i5⟩
    · rw [i2]; simp; omega
    · rw [i3]; simp

/-- C8 (evaluation at the failing input): after a successful startup the subprocess
exits six times within one second with the subscription still running. The sixth `checkRetry`
is denied and the subprocess goroutine returns, yet the calling goroutine is still in
its read loop with the pipe write end open, and whatever status-200 responses the
subscriber then delivers are all read and copied into the pipe: the worker has not
terminated. -/
theorem C8_subscription_continues_after_denial (bodies : List GoString) :
    deniedBridge.denied = true ∧ deniedBridge.ffmpeg = FfmpegPC.done ∧
    deniedBridge.launches = 6 ∧ deniedBridge.subscriptionDone = false ∧
    deniedBridge.pc = MainPC.reading ∧ deniedBridge.reads = 0 ∧
    (deniedBridge.exec (okReads bodies)).pc = MainPC.reading ∧
    (deniedBridge.exec (okReads bodies)).reads = bodies.length ∧
    (deniedBridge.exec (okReads bodies)).written = bodies.flatten ∧
    (deniedBridge.exec (okReads bodies)).wOpen = true := by
  have hpc : deniedBridge.pc = MainPC.reading := by decide
  have hreads : deniedBridge.reads = 0 := by decide
  have hwritten : deniedBridge.written = [] := by decide
  have hw : deniedBridge.wOpen = true := by decide
  obtain ⟨i1, i2, i3, i4, _⟩ := exec_okReads bodies deniedBridge hpc
  refine ⟨by decide, by decide, by decide, by decide, hpc, hreads, i1, ?_, ?_, ?_⟩
  · rw [i2, hreads]; simp
  · rw [i3, hwritten]; simp
  · rw [i4, hw]

theorem step_rOpen (s : Bridge) (e : Event) : (s.step e).rOpen = s.rOpen := by
  cases e with
  | read r =>
    unfold Bridge.step
    cases hp : s.pc <;> simp
    cases r with
    | err eos => simp [Bridge.readIter]
    | resp code body =>
      by_cases hc : code = StatusOK <;> simp [Bridge.readIter, hc]
  | mainStep =>
    unfold Bridge.step
    cases hp : s.pc <;> simp
    split <;> simp
  | ffmpegExit now => exact (step_ffmpegExit_main s now).2.2.2.2.1

/-- C9 (evaluation at the failing input): no event of `runSubscribe` closes the pipe
read end, so after a successful startup it is open in every state; in particular, when
the subscription ends with the end-of-stream error and the subprocess exits,
`runSubscribe` returns `nil` with the write end closed and the read end still open. -/
theorem C9_read_end_left_open (evs : List Event) :
    (runSubscribeStart none none).pipeOpened = true ∧
    ((runSubscribeStart none none).exec evs).rOpen = true ∧
    ((runSubscribeStart none none).exec (shutdownSchedule (ReadResult.err true) 0)).pc =
      MainPC.returned none ∧
    ((runSubscribeStart none none).exec (shutdownSchedule (ReadResult.err true) 0)).wOpen =
      false ∧
    ((runSubscribeStart none none).exec (shutdownSchedule (ReadResult.err true) 0)).rOpen =
      true := by
  refine ⟨rfl, ?_, by decide, by decide, by decide⟩
  have hgen : ∀ (l : List Event) (s : Bridge), (s.exec l).rOpen = s.rOpen := by
    intro l
    induction l with
    | nil => intro s; rfl
    | cons e l ih => intro s; rw [exec_cons, ih, step_rOpen]
  rw [hgen]
  rfl

/-! ## What `runSubscribe` returns -/

/-- After a failed startup nothing runs: every event leaves the state as it is. -/
theorem exec_failed (err : GoError) (evs : List Event) :
    (Bridge.failed err).exec evs = Bridge.failed err := by
  induction evs with
  | nil => rfl
  | cons e evs ih =>
    have hstep : (Bridge.failed err).step e = Bridge.failed err := by
      cases e <;> simp [Bridge.step, Bridge.failed]
    rw [exec_cons, hstep, ih]

theorem started_start : (runSubscribeStart none none).Started := by
  simp [Bridge.Started, runSubscribeStart]

theorem started_step (s : Bridge) (e : Event) (h : s.Started) : (s.step e).Started := by
  obtain ⟨h1, h2, h3⟩ := h
  cases e with
  | ffmpegExit now =>
    obtain ⟨m1, _, _, m4, _, _⟩ := step_ffmpegExit_main s now
    refine ⟨?_, by rw [m1, m4]; exact h2, by rw [m1]; exact h3⟩
    unfold Bridge.step
    cases hf : s.ffmpeg with
    | notStarted => exact absurd hf h1
    | done => simp [hf]
    | running =>
      dsimp only
      rcases ho : ffmpegIter s.subscriptionDone s.rc now with ⟨o, rc'⟩
      cases o <;> simp [hf]
  | read r =>
    unfold Bridge.step
    cases hp : s.pc with
    | reading =>
      cases r with
      | err eos => simp [Bridge.Started, Bridge.readIter, h1]
      | resp code body =>
        by_cases hc : code = StatusOK <;> simp [Bridge.Started, Bridge.readIter, hc, h1, hp]
    | closeDone => exact ⟨h1, h2, h3⟩
    | closeW => exact ⟨h1, h2, h3⟩
    | waitFfmpeg => exact ⟨h1, h2, h3⟩
    | returned err => exact ⟨h1, h2, h3⟩
  | mainStep =>
    unfold Bridge.step
    cases hp : s.pc with
    | reading => exact ⟨h1, h2, h3⟩
    | closeDone => simp [Bridge.Started, h1]
    | closeW =>
      have := h2 (Or.inl hp)
      simp [Bridge.Started, h1, this]
    | waitFfmpeg =>
      dsimp only
      split
      · simp [Bridge.Started, h1]
      · exact ⟨h1, h2, h3⟩
    | returned err => exact ⟨h1, h2, h3⟩

theorem started_exec (evs : List Event) : ∀ s : Bridge, s.Started → (s.exec evs).Started := by
  induction evs with
  | nil => intro s h; exact h
  | cons e evs ih => intro s h; rw [exec_cons]; exact ih _ (started_step s e h)

/-- Once `runSubscribe` has returned, it has returned. -/
theorem exec_returned (evs : List Event) :
    ∀ (s : Bridge) (r : Option GoError), s.pc = MainPC.returned r →
      (s.exec evs).pc = MainPC.returned r := by
  induction evs with
  | nil => intro s r h; exact h
  | cons e evs ih =>
    intro s r h
    rw [exec_cons]
    apply ih
    cases e with
    | read x => simp [Bridge.step, h]
    | mainStep => simp [Bridge.step, h]
    | ffmpegExit now => rw [(step_ffmpegExit_main s now).1, h]

/-- From every state of a started bridge, once the subscriber delivers a stopping result
and the subprocess exits, `runSubscribe` returns `nil`. -/
theorem started_shutdown (s : Bridge) (h : s.Started) (stop : ReadResult) (now : Int)
    (hstop : stop.isOK = false) :
    (s.exec (shutdownSchedule stop now)).pc = MainPC.returned none := by
  obtain ⟨h1, h2, h3⟩ := h
  obtain ⟨pc, ff, sd, rc, launches, relaunches, denied, reads, written, po, ro, wo⟩ := s
  simp only at h1 h2 h3
  cases pc with
  | reading =>
    cases stop with
    | err eos =>
      cases ff <;>
        simp_all [Bridge.exec, shutdownSchedule, Bridge.step, Bridge.readIter, ffmpegIter]
    | resp code body =>
      have hc : ¬ code = StatusOK := by simpa [ReadResult.isOK] using hstop
      cases ff <;>
        simp_all [Bridge.exec, shutdownSchedule, Bridge.step, Bridge.readIter, ffmpegIter]
  | closeDone =>
    cases ff <;> simp_all [Bridge.exec, shutdownSchedule, Bridge.step, ffmpegIter]
  | closeW =>
    cases ff <;> simp_all [Bridge.exec, shutdownSchedule, Bridge.step, ffmpegIter]
  | waitFfmpeg =>
    cases ff <;> simp_all [Bridge.exec, shutdownSchedule, Bridge.step, ffmpegIter]
  | returned err =>
    cases err with
    | some e => exact absurd rfl (h3 e)
    | none => exact exec_returned _ _ none rfl

/-- C10: `runSubscribe` returns a non-nil error exactly when startup fails, namely the
error of `NewTrickleSubscriber` or, when that succeeds, the error of `os.Pipe()`; it
then returns at once, with no subprocess launched and no subscriber read. After a
successful startup, from every state it has reached, once the subscriber delivers a
stopping result (end-of-stream, another error, a non-200 status) and the subprocess
exits, it returns `nil`. -/
theorem C10_error_iff_startup_fails (newSub pipe : Option GoError) (evs : List Event) :
    (∀ err : GoError,
      ((runSubscribeStart newSub pipe).exec evs).pc = MainPC.returned (some err) ↔
        (newSub = some err ∨ (newSub = none ∧ pipe = some err))) ∧
    ((newSub ≠ none ∨ pipe ≠ none) →
      (∃ err : GoError, (runSubscribeStart newSub pipe).pc = MainPC.returned (some err)) ∧
      ((runSubscribeStart newSub pipe).exec evs).launches = 0 ∧
      ((runSubscribeStart newSub pipe).exec evs).reads = 0) ∧
    (newSub = none → pipe = none → ∀ (stop : ReadResult) (now : Int), stop.isOK = false →
      (((runSubscribeStart newSub pipe).exec evs).exec (shutdownSchedule stop now)).pc =
        MainPC.returned none) := by
  cases newSub with
  | some e =>
    have hs : runSubscribeStart (some e) pipe = Bridge.failed e := rfl
    rw [hs, exec_failed]
    refine ⟨?_, ?_, ?_⟩
    · intro err
      simp [Bridge.failed]
    · intro _
      exact ⟨⟨e, rfl⟩, rfl, rfl⟩
    · intro h; exact absurd h (by simp)
  | none =>
    cases pipe with
    | some e =>
      have hs : runSubscribeStart none (some e) = Bridge.failed e := rfl
      rw [hs, exec_failed]
      refine ⟨?_, ?_, ?_⟩
      · intro err
        simp [Bridge.failed]
      · intro _
        exact ⟨⟨e, rfl⟩, rfl, rfl⟩
      · intro _ h; exact absurd h (by simp)
    | none =>
      have hst := started_exec evs _ started_start
      refine ⟨?_, ?_, ?_⟩
      · intro err
        simp only [reduceCtorEq, false_or, and_false, iff_false]
        exact hst.2.2 err
      · intro h
        rcases h with h | h <;> exact absurd rfl h
      · intro _ _ stop now hstop
        exact started_shutdown _ hst stop now hstop

end PublisherOut
